import Mathlib

/-
Shallow embedding of the core of the Bounce satellite-relay protocol
(crate `bounce`): the per-unit decision state machine of `src/cubesat.rs`
(`SlotInfo`, `Cubesat::process`, `Cubesat::run`), the supermajority
threshold of `src/lib.rs`, and the coordinator receive loop of
`src/bin/flock.rs` (`Flock::bounce`).

Machine integers (`u32`) are modelled as `Nat`; the only arithmetic the
code performs on them is `+ 1`, which is taken modulo `2^32` (release
semantics of Rust overflow).  Byte vectors (`Vec<u8>`) are modelled as
`List Nat`; the message payload is modelled as a `String`, matching the
`format!`/`into_bytes` use in the source.  The external BLS library
(`bls_signatures_rs::bn256`) is modelled as a record of primitive
operations each of which may fail (`Option`); a failing primitive makes
the calling operation return `none`, which models the `.unwrap()` panic
in the source.  Channel sends always succeed in the model.
-/

/-- Modulus of Rust's `u32` arithmetic. -/
def u32Size : Nat := 4294967296

/-- Embedding of `CommitType` from the `bounce` protobuf: a commit is either a
precommit or a non-commit. -/
inductive CommitType where
  | Precommit : CommitType
  | Noncommit : CommitType
deriving DecidableEq, Repr

/-- The `Commit` wire/in-memory record (protobuf message `Commit`). -/
structure Commit where
  typ : CommitType
  i : Nat
  j : Nat
  msg : String
  public_key : List Nat
  signature : List Nat
  aggregated : Bool
  signer_id : Nat
deriving DecidableEq, Repr

/-- Embedding of `Phase` from `src/cubesat.rs`. -/
inductive Phase where
  | Stop : Phase
  | First : Phase
  | Second : Phase
  | Third : Phase
deriving DecidableEq, Repr

/-- Embedding of `SlotInfo` from `src/cubesat.rs`: per-unit record of the current
slot. -/
structure SlotInfo where
  i : Nat
  j : Nat
  phase : Phase
  signed : Bool
  aggregated : Bool
  precommits : List Commit
  noncommits : List Commit
deriving DecidableEq, Repr

/-- Embedding of `SlotInfo::new`. -/
def SlotInfo.new : SlotInfo :=
  { i := 0, j := 0, phase := Phase.Stop, signed := false, aggregated := false,
    precommits := [], noncommits := [] }

/-- Embedding of `SlotInfo::next`: advance to the next slot (`i += 1` is `u32`
arithmetic), reset the flags and clear both buffers. -/
def SlotInfo.next (s : SlotInfo) : SlotInfo :=
  { s with
    i := (s.i + 1) % u32Size,
    phase := Phase.First,
    signed := false,
    aggregated := false,
    precommits := [],
    noncommits := [] }

/-- Embedding of `supermajority` from `src/lib.rs`.  The source computes
`(n as f64 / 3.0 * 2.0).ceil() as usize`; its exact value on every input
in the realistic range is the ceiling of `2n/3`, which is what the unit
tests of `src/lib.rs` assert (`10 ↦ 7`, `25 ↦ 17`, `1 ↦ 1`, `3 ↦ 2`).
We embed that exact value; `(2n + 2) / 3` is `⌈2n/3⌉` on `Nat`. -/
def supermajority (n : Nat) : Nat := (2 * n + 2) / 3

/-- The BLS primitives of `bls_signatures_rs::bn256::Bn256` used by the
unit, abstracted: each may fail, as the library functions return
`Result`. -/
structure Bls where
  sign : List Nat → String → Option (List Nat)
  aggregate_signatures : List (List Nat) → Option (List Nat)
  aggregate_public_keys : List (List Nat) → Option (List Nat)

/-- The state of a `Cubesat` (Bounce Unit) from `src/cubesat.rs`; the
channel handles are replaced by explicit event lists and emission
lists. -/
structure Cubesat where
  id : Nat
  num_cubesats : Nat
  slot_info : SlotInfo
  public_key : List Nat
  private_key : List Nat
deriving DecidableEq, Repr

/-- Embedding of `Cubesat::new` (key generation replaced by explicit key
parameters). -/
def Cubesat.new (id : Nat) (num_cubesats : Nat)
    (public_key private_key : List Nat) : Cubesat :=
  { id := id, num_cubesats := num_cubesats, slot_info := SlotInfo.new,
    public_key := public_key, private_key := private_key }

/-- Embedding of `Cubesat::aggregate`: aggregate the signatures and the public keys of
a list of commits.  `none` models the `.unwrap()` panic on a library
error. -/
def Cubesat.aggregate (bls : Bls) (commits : List Commit) :
    Option (List Nat × List Nat) := do
  let aggregate_signature ← bls.aggregate_signatures
    (commits.map Commit.signature)
  let aggregate_public_key ← bls.aggregate_public_keys
    (commits.map Commit.public_key)
  some (aggregate_signature, aggregate_public_key)

/-- Embedding of `Cubesat::get_commits`: the buffer selected by a commit type. -/
def Cubesat.get_commits (c : Cubesat) (commit_type : CommitType) :
    List Commit :=
  if commit_type = CommitType.Precommit then
    c.slot_info.precommits
  else
    c.slot_info.noncommits

/-- Embedding of `Cubesat::aggregate_and_broadcast`: aggregate the buffer selected by
`commit.typ()`, overwrite the commit's signature and key with the
aggregates, stamp it with the current slot and own id, mark the slot
aggregated, advance `j` to the commit's slot if it is a precommit, and
emit the commit. -/
def Cubesat.aggregate_and_broadcast (bls : Bls) (c : Cubesat)
    (commit : Commit) : Option (Cubesat × Commit) := do
  let (aggregate_signature, aggregate_public_key) ←
    Cubesat.aggregate bls (c.get_commits commit.typ)
  let commit := { commit with
    signature := aggregate_signature,
    public_key := aggregate_public_key,
    aggregated := true,
    i := c.slot_info.i,
    signer_id := c.id }
  let si := { c.slot_info with aggregated := true }
  let si := if commit.typ = CommitType.Precommit then
    { si with j := commit.i } else si
  some ({ c with slot_info := si }, commit)

/-- Embedding of `Cubesat::sign_and_broadcast`: sign the commit's message with the
unit's private key, overwrite its key and signature with the unit's own,
stamp it with the current slot and own id, mark the slot signed, and
emit the commit.  The emitted commit and the returned commit are the
same value, as in the source. -/
def Cubesat.sign_and_broadcast (bls : Bls) (c : Cubesat)
    (commit : Commit) : Option (Cubesat × Commit) := do
  let signature ← bls.sign c.private_key commit.msg
  let commit := { commit with
    signature := signature,
    public_key := c.public_key,
    i := c.slot_info.i,
    signer_id := c.id }
  some ({ c with slot_info := { c.slot_info with signed := true } }, commit)

/-- The `match self.slot_info.phase` block of `Cubesat::process`: record
a non-aggregate commit according to the phase rules, possibly signing it
first.  Returns the updated unit, the (possibly re-signed) commit bound
to `commit` in the source after the block, and the list of commits
emitted inside the block.  The `Phase::Stop` arm is `unreachable!` in
the source; it is modelled as `none` (panic). -/
def Cubesat.recordPhase (bls : Bls) (c : Cubesat) (commit : Commit) :
    Option (Cubesat × Commit × List Commit) :=
  match c.slot_info.phase with
  | Phase.First =>
      if commit.typ = CommitType.Precommit then do
        let (c₁, commit₁, outs₁) ←
          if !c.slot_info.signed then do
            let (c', cm') ← Cubesat.sign_and_broadcast bls c commit
            some (c', cm', [cm'])
          else
            some (c, commit, ([] : List Commit))
        some ({ c₁ with slot_info := { c₁.slot_info with
          precommits := c₁.slot_info.precommits ++ [commit₁] } },
          commit₁, outs₁)
      else
        some (c, commit, [])
  | Phase.Second => do
      let (c₁, commit₁, outs₁) ←
        if !c.slot_info.signed then do
          let (c', cm') ← Cubesat.sign_and_broadcast bls c commit
          some (c', cm', [cm'])
        else
          some (c, commit, ([] : List Commit))
      if commit₁.typ = CommitType.Precommit then
        some ({ c₁ with slot_info := { c₁.slot_info with
          precommits := c₁.slot_info.precommits ++ [commit₁] } },
          commit₁, outs₁)
      else
        some ({ c₁ with slot_info := { c₁.slot_info with
          noncommits := c₁.slot_info.noncommits ++ [commit₁] } },
          commit₁, outs₁)
  | Phase.Third =>
      if commit.typ = CommitType.Precommit then
        some ({ c with slot_info := { c.slot_info with
          precommits := c.slot_info.precommits ++ [commit] } },
          commit, [])
      else
        some ({ c with slot_info := { c.slot_info with
          noncommits := c.slot_info.noncommits ++ [commit] } },
          commit, [])
  | Phase.Stop => none

/-- The quorum check at the end of `Cubesat::process`: if the precommit
buffer has reached the supermajority threshold, aggregate and broadcast;
otherwise, if the non-commit buffer has reached it, aggregate and
broadcast.  `aggregate_and_broadcast` is called on the commit that was
just recorded, so the buffer it aggregates is chosen by that commit's
type. -/
def Cubesat.quorumCheck (bls : Bls) (c : Cubesat) (commit : Commit) :
    Option (Cubesat × List Commit) :=
  if supermajority c.num_cubesats ≤ c.slot_info.precommits.length then do
    let (c₂, out) ← Cubesat.aggregate_and_broadcast bls c commit
    some (c₂, [out])
  else if supermajority c.num_cubesats ≤ c.slot_info.noncommits.length then do
    let (c₂, out) ← Cubesat.aggregate_and_broadcast bls c commit
    some (c₂, [out])
  else
    some (c, [])

/-- Embedding of `Cubesat::process`: handle one inbound commit.  Returns the updated
unit together with the list of commits it emitted, or `none` when the
handling panics (a BLS `.unwrap()` failure). -/
def Cubesat.process (bls : Bls) (c : Cubesat) (commit : Commit) :
    Option (Cubesat × List Commit) :=
  if c.public_key = commit.public_key then
    some (c, [])
  else if c.slot_info.phase = Phase.Stop then
    some (c, [])
  else if c.slot_info.aggregated then
    some (c, [])
  else if commit.aggregated ∧ commit.i = c.slot_info.i then
    some ({ c with slot_info := { c.slot_info with
      aggregated := true,
      j := commit.j } }, [])
  else do
    let (c₁, commit₁, outs₁) ← Cubesat.recordPhase bls c commit
    let (c₂, outs₂) ← Cubesat.quorumCheck bls c₁ commit₁
    some (c₂, outs₁ ++ outs₂)

/-- One iteration of the `tokio::select!` in `Cubesat::run`: either a
phase tick from the timer or an inbound commit from the request
channel.  The `Command::Terminate` arm only breaks the loop and is
modelled by ending the event list. -/
inductive Event where
  | tick : Phase → Event
  | recv : Commit → Event
deriving DecidableEq, Repr

/-- The message string of the Third-phase non-commit, the
`format!("noncommit({}, {})", self.slot_info.j + 1, self.slot_info.i)`
of the source: note the space after the comma produced by the format
string. -/
def noncommitMsg (j i : Nat) : String :=
  "noncommit(" ++ toString ((j + 1) % u32Size) ++ ", " ++ toString i ++ ")"

/-- The non-commit record a unit constructs on the Third-phase tick,
given the signature `sg` obtained for its message. -/
def ownNoncommit (c : Cubesat) (sg : List Nat) : Commit :=
  { typ := CommitType.Noncommit
    i := c.slot_info.i
    j := c.slot_info.j
    msg := noncommitMsg c.slot_info.j c.slot_info.i
    public_key := c.public_key
    signature := sg
    aggregated := false
    signer_id := c.id }

/-- The body of the timer arm of `Cubesat::run` for one phase
notification: on `First` advance the slot, on `Third` sign and
broadcast a non-commit for `(j+1, i)` if the unit has not signed yet,
and finally set `slot_info.phase` to the received phase. -/
def Cubesat.tickPhase (bls : Bls) (c : Cubesat) (ph : Phase) :
    Option (Cubesat × List Commit) := do
  let (c₁, outs) ←
    match ph with
    | Phase.First =>
        some ({ c with slot_info := c.slot_info.next }, ([] : List Commit))
    | Phase.Second => some (c, [])
    | Phase.Third =>
        if !c.slot_info.signed then do
          let sig0 ← bls.sign c.private_key
            (noncommitMsg c.slot_info.j c.slot_info.i)
          let noncommit : Commit := ownNoncommit c sig0
          let (c₂, sent) ← Cubesat.sign_and_broadcast bls c noncommit
          some ({ c₂ with slot_info := { c₂.slot_info with
            noncommits := c₂.slot_info.noncommits ++ [noncommit] } }, [sent])
        else
          some (c, [])
    | Phase.Stop => some (c, [])
  some ({ c₁ with slot_info := { c₁.slot_info with phase := ph } }, outs)

/-- One step of `Cubesat::run`. -/
def Cubesat.step (bls : Bls) (c : Cubesat) : Event →
    Option (Cubesat × List Commit)
  | Event.tick ph => Cubesat.tickPhase bls c ph
  | Event.recv commit => Cubesat.process bls c commit

/-- Embedding of `Cubesat::run` over a finite serialization of select outcomes:
process the events in order, collecting all emitted commits.  `none`
when some step panics. -/
def Cubesat.run (bls : Bls) (c : Cubesat) : List Event →
    Option (Cubesat × List Commit)
  | [] => some (c, [])
  | e :: es => do
      let (c₁, outs₁) ← Cubesat.step bls c e
      let (c₂, outs₂) ← Cubesat.run bls c₁ es
      some (c₂, outs₁ ++ outs₂)

/-- A concrete total instance of the BLS primitives, used to evaluate
the model on concrete inputs.  Signatures and keys are symbolic byte
lists; aggregation tags and concatenates its inputs, so distinct inputs
stay distinguishable. -/
def blsOk : Bls :=
  { sign := fun sk msg => some (sk ++ [msg.length]),
    aggregate_signatures := fun ss => some (1 :: ss.flatten),
    aggregate_public_keys := fun ks => some (2 :: ks.flatten) }

/-- A BLS instance whose `sign` primitive fails, modelling a BLS
library error on signing. -/
def blsBad : Bls :=
  { sign := fun _ _ => none,
    aggregate_signatures := fun ss => some (1 :: ss.flatten),
    aggregate_public_keys := fun ks => some (2 :: ks.flatten) }

/-- The receive loop of `Flock::bounce` in `src/bin/flock.rs`,
serialized across `bounce` invocations: the coordinator holds the single
result receiver and the shared `last_slot` under mutexes, so the commits
read from the result channel are consumed one at a time against one
evolving `last_slot`.  On a non-aggregate commit, rebroadcast it to the
units (second component); on an aggregate commit with `last_slot <
commit.i`, set `last_slot` to `commit.i` and return the commit upstream
(first component); on any other aggregate commit, drop it. -/
def Flock.bounceLoop : Nat → List Commit → List Commit × List Commit
  | _, [] => ([], [])
  | last_slot, commit :: rest =>
      if commit.aggregated then
        if last_slot < commit.i then
          (commit :: (Flock.bounceLoop commit.i rest).1,
            (Flock.bounceLoop commit.i rest).2)
        else
          Flock.bounceLoop last_slot rest
      else
        ((Flock.bounceLoop last_slot rest).1,
          commit :: (Flock.bounceLoop last_slot rest).2)

/-- The commits `Flock::bounce` returns upstream, starting from a given
`last_slot`.  `Flock::new` initializes `last_slot` to `0`. -/
def Flock.upstream (last_slot : Nat) (received : List Commit) :
    List Commit :=
  (Flock.bounceLoop last_slot received).1

/-
Concrete instances used to evaluate the model: a three-unit flock member,
a single-unit flock member, and a handful of wire commits.  The keys are
arbitrary distinct byte lists; what matters is only whether a commit's
`public_key` equals the unit's own.
-/

/-- A Bounce Unit with id 0 in a flock of three (`supermajority 3 = 2`). -/
def cSat3 : Cubesat := Cubesat.new 0 3 [5] [7]

/-- A Bounce Unit with id 0 in a flock of one (`supermajority 1 = 1`). -/
def cSat1 : Cubesat := Cubesat.new 0 1 [5] [7]

/-- A non-aggregate precommit from peer unit 1. -/
def exPrecommitA : Commit :=
  { typ := CommitType.Precommit
    i := 1
    j := 0
    msg := "ping"
    public_key := [11]
    signature := [3]
    aggregated := false
    signer_id := 1 }

/-- A non-aggregate precommit from peer unit 2. -/
def exPrecommitB : Commit :=
  { typ := CommitType.Precommit
    i := 1
    j := 0
    msg := "ping"
    public_key := [12]
    signature := [6]
    aggregated := false
    signer_id := 2 }

/-- A non-aggregate non-commit from peer unit 2. -/
def exNoncommitA : Commit :=
  { typ := CommitType.Noncommit
    i := 1
    j := 0
    msg := "noncommit(1, 1)"
    public_key := [21]
    signature := [9]
    aggregated := false
    signer_id := 2 }

/-- An aggregate precommit for slot 1 carrying `j = 1`. -/
def exAggSlot1 : Commit :=
  { typ := CommitType.Precommit
    i := 1
    j := 1
    msg := "m"
    public_key := [9]
    signature := [4]
    aggregated := true
    signer_id := 2 }

/-- An aggregate precommit for slot 2 carrying the stale value `j = 0`,
as produced from a ground-station precommit whose `j` field was never
rewritten by `sign_and_broadcast` or `aggregate_and_broadcast`. -/
def exAggSlot2LowJ : Commit :=
  { typ := CommitType.Precommit
    i := 2
    j := 0
    msg := "x"
    public_key := [13]
    signature := [8]
    aggregated := true
    signer_id := 1 }

/-- A unit of a three-unit flock in the Third phase of slot 1 whose
precommit buffer already holds two commits (the supermajority for
`N = 3`) while its non-commit buffer is empty. -/
def cSatQuorum : Cubesat :=
  { id := 0
    num_cubesats := 3
    slot_info :=
      { i := 1
        j := 0
        phase := Phase.Third
        signed := true
        aggregated := false
        precommits := [exPrecommitA, exPrecommitB]
        noncommits := [] }
    public_key := [5]
    private_key := [7] }

/-- A unit of a three-unit flock in the Second phase of slot 1 that has
not signed yet. -/
def cSatUnsigned : Cubesat :=
  { id := 0
    num_cubesats := 3
    slot_info :=
      { i := 1
        j := 0
        phase := Phase.Second
        signed := false
        aggregated := false
        precommits := []
        noncommits := [] }
    public_key := [5]
    private_key := [7] }

/-- Boot trace for the `j`-rollback counterexample, first part: the unit
signs two peer precommits in slot 1 and aggregates them, setting
`j = 1`. -/
def evRollbackPre : List Event :=
  [Event.tick Phase.First, Event.tick Phase.Second,
   Event.recv exPrecommitA, Event.recv exPrecommitB]

/-- Boot trace for the `j`-rollback counterexample, full: after slot 2
starts, an inbound aggregate for slot 2 carrying `j = 0` arrives. -/
def evRollbackFull : List Event :=
  evRollbackPre ++ [Event.tick Phase.First, Event.recv exAggSlot2LowJ]

/-- Boot trace in which the unit observes an inbound aggregate for slot 1
before it has signed, and then receives the Third-phase tick. -/
def evAggThenThird : List Event :=
  [Event.tick Phase.First, Event.recv exAggSlot1,
   Event.tick Phase.Second, Event.tick Phase.Third]

/-- Boot trace of a single-unit flock in which the ground-station
precommit arrives only after the Third-phase tick. -/
def evLateRequest : List Event :=
  [Event.tick Phase.First, Event.tick Phase.Second,
   Event.tick Phase.Third, Event.recv exPrecommitA]

/-- Boot trace of the first slot up to the Third-phase tick with no
inbound traffic. -/
def evThreeTicks : List Event :=
  [Event.tick Phase.First, Event.tick Phase.Second, Event.tick Phase.Third]

/-- A trace without a First-phase tick: the slot index never changes. -/
def evNoFirst : List Event :=
  [Event.tick Phase.Second, Event.recv exPrecommitA, Event.recv exNoncommitA]

/-- An aggregate commit for slot 1 as read by the coordinator. -/
def exAggUp : Commit :=
  { typ := CommitType.Precommit
    i := 1
    j := 0
    msg := "m"
    public_key := [9]
    signature := [4]
    aggregated := true
    signer_id := 2 }

/-- The number of non-aggregate commits in an emission list. -/
def nonAggCount (outs : List Commit) : Nat :=
  (outs.filter fun cm => !cm.aggregated).length

/-- Appending a commit to the precommit buffer: the effect of
`self.slot_info.precommits.push(..)` in `Cubesat::process`. -/
def pushPre (c : Cubesat) (cm : Commit) : Cubesat :=
  { c with slot_info := { c.slot_info with
    precommits := c.slot_info.precommits ++ [cm] } }

/-- Appending a commit to the non-commit buffer: the effect of
`self.slot_info.noncommits.push(..)` in `Cubesat::process`. -/
def pushNon (c : Cubesat) (cm : Commit) : Cubesat :=
  { c with slot_info := { c.slot_info with
    noncommits := c.slot_info.noncommits ++ [cm] } }

/-- The commit as rewritten by `sign_and_broadcast` when the signature
obtained is `sg`. -/
def signedCm (c : Cubesat) (cm : Commit) (sg : List Nat) : Commit :=
  { cm with
    signature := sg
    public_key := c.public_key
    i := c.slot_info.i
    signer_id := c.id }

/-- The unit state with the signed flag raised. -/
def markSigned (c : Cubesat) : Cubesat :=
  { c with slot_info := { c.slot_info with signed := true } }

/-- The third way a step can change `slot.j`: the event is an inbound
aggregate commit for the current slot, and `j` is overwritten with the
aggregate's `j` field. -/
def recvAggSetsJ (c : Cubesat) (r : Cubesat × List Commit) :
    Event → Prop
  | Event.recv cm => cm.aggregated = true ∧ cm.i = c.slot_info.i ∧
      r.1.slot_info.j = cm.j
  | Event.tick _ => False

/-- Buffer-occupancy invariant of a Bounce Unit, maintained by every
event from boot: the threshold is positive; an unsigned unit has empty
buffers (every recording path signs first or follows the Third-phase
tick, which signs); a unit in the Third phase has signed; while the slot
is not aggregated each buffer is strictly below the threshold or the
state is the lone own non-commit pushed by the Third-phase tick; and the
two buffers together never hold more than twice the threshold. -/
def BufInv (c : Cubesat) : Prop :=
  1 ≤ supermajority c.num_cubesats ∧
  (c.slot_info.signed = false →
    c.slot_info.precommits = [] ∧ c.slot_info.noncommits = []) ∧
  (c.slot_info.phase = Phase.Third → c.slot_info.signed = true) ∧
  (c.slot_info.aggregated = false →
    (c.slot_info.precommits.length + 1 ≤ supermajority c.num_cubesats ∧
     c.slot_info.noncommits.length + 1 ≤ supermajority c.num_cubesats) ∨
    (c.slot_info.precommits = [] ∧ c.slot_info.noncommits.length = 1)) ∧
  c.slot_info.precommits.length + c.slot_info.noncommits.length ≤
    2 * supermajority c.num_cubesats

/-
Inversion lemmas: each successful operation is resolved into an explicit
description of the successor state and the emitted commits.
-/

/-- Inversion for `sign_and_broadcast`. -/
theorem sign_and_broadcast_eq_some {bls : Bls} {c : Cubesat} {cm : Commit}
    {r : Cubesat × Commit}
    (h : Cubesat.sign_and_broadcast bls c cm = some r) :
    ∃ sg, bls.sign c.private_key cm.msg = some sg ∧
      r = ({ c with slot_info := { c.slot_info with signed := true } },
        { cm with
          signature := sg
          public_key := c.public_key
          i := c.slot_info.i
          signer_id := c.id }) := by
  unfold Cubesat.sign_and_broadcast at h
  cases hs : bls.sign c.private_key cm.msg with
  | none => rw [hs] at h; simp at h
  | some sg =>
      rw [hs] at h
      exact ⟨sg, rfl, (Option.some.inj h).symm⟩

/-- Inversion for `aggregate_and_broadcast`. -/
theorem aggregate_and_broadcast_eq_some {bls : Bls} {c : Cubesat}
    {cm : Commit} {r : Cubesat × Commit}
    (h : Cubesat.aggregate_and_broadcast bls c cm = some r) :
    ∃ sp, Cubesat.aggregate bls (c.get_commits cm.typ) = some sp ∧
      r = ({ c with slot_info :=
          if cm.typ = CommitType.Precommit then
            { c.slot_info with aggregated := true, j := c.slot_info.i }
          else
            { c.slot_info with aggregated := true } },
        { cm with
          signature := sp.1
          public_key := sp.2
          aggregated := true
          i := c.slot_info.i
          signer_id := c.id }) := by
  unfold Cubesat.aggregate_and_broadcast at h
  cases ha : Cubesat.aggregate bls (c.get_commits cm.typ) with
  | none => rw [ha] at h; simp at h
  | some sp =>
      obtain ⟨s1, s2⟩ := sp
      rw [ha] at h
      exact ⟨(s1, s2), rfl, (Option.some.inj h).symm⟩

/-- Inversion for `quorumCheck`: either no buffer has reached the
threshold and nothing happens, or some buffer has and the just-recorded
commit is passed to `aggregate_and_broadcast`. -/
theorem quorumCheck_eq_some {bls : Bls} {c : Cubesat} {cm : Commit}
    {r : Cubesat × List Commit}
    (h : Cubesat.quorumCheck bls c cm = some r) :
    (¬ supermajority c.num_cubesats ≤ c.slot_info.precommits.length ∧
     ¬ supermajority c.num_cubesats ≤ c.slot_info.noncommits.length ∧
     r = (c, [])) ∨
    ((supermajority c.num_cubesats ≤ c.slot_info.precommits.length ∨
      supermajority c.num_cubesats ≤ c.slot_info.noncommits.length) ∧
     ∃ s, Cubesat.aggregate_and_broadcast bls c cm = some s ∧
       r = (s.1, [s.2])) := by
  unfold Cubesat.quorumCheck at h
  split at h
  case isTrue hp =>
    refine Or.inr ⟨Or.inl hp, ?_⟩
    cases ha : Cubesat.aggregate_and_broadcast bls c cm with
    | none => rw [ha] at h; exact absurd h (by simp)
    | some s =>
        obtain ⟨s1, s2⟩ := s
        rw [ha] at h
        exact ⟨(s1, s2), rfl, (Option.some.inj h).symm⟩
  case isFalse hp =>
    split at h
    case isTrue hn =>
      refine Or.inr ⟨Or.inr hn, ?_⟩
      cases ha : Cubesat.aggregate_and_broadcast bls c cm with
      | none => rw [ha] at h; exact absurd h (by simp)
      | some s =>
          obtain ⟨s1, s2⟩ := s
          rw [ha] at h
          exact ⟨(s1, s2), rfl, (Option.some.inj h).symm⟩
    case isFalse hn =>
      exact Or.inl ⟨hp, hn, (Option.some.inj h).symm⟩

/-- Inversion for `tickPhase`: the four possible effects of a phase
notification. -/
theorem tickPhase_eq_some {bls : Bls} {c : Cubesat} {ph : Phase}
    {r : Cubesat × List Commit}
    (h : Cubesat.tickPhase bls c ph = some r) :
    (ph = Phase.First ∧
      r = ({ c with slot_info :=
        { c.slot_info.next with phase := Phase.First } }, [])) ∨
    ((ph = Phase.Second ∨ ph = Phase.Stop) ∧
      r = ({ c with slot_info :=
        { c.slot_info with phase := ph } }, [])) ∨
    (ph = Phase.Third ∧ c.slot_info.signed = true ∧
      r = ({ c with slot_info :=
        { c.slot_info with phase := Phase.Third } }, [])) ∨
    (ph = Phase.Third ∧ c.slot_info.signed = false ∧ ∃ sg,
      bls.sign c.private_key
        (noncommitMsg c.slot_info.j c.slot_info.i) = some sg ∧
      r = ({ c with slot_info := { c.slot_info with
          signed := true
          noncommits := c.slot_info.noncommits ++ [ownNoncommit c sg]
          phase := Phase.Third } }, [ownNoncommit c sg])) := by
  unfold Cubesat.tickPhase at h
  cases ph with
  | First =>
      exact Or.inl ⟨rfl, (Option.some.inj h).symm⟩
  | Second =>
      exact Or.inr (Or.inl ⟨Or.inl rfl, (Option.some.inj h).symm⟩)
  | Stop =>
      exact Or.inr (Or.inl ⟨Or.inr rfl, (Option.some.inj h).symm⟩)
  | Third =>
      cases hsg : c.slot_info.signed with
      | true =>
          rw [hsg] at h
          exact Or.inr (Or.inr (Or.inl ⟨rfl, rfl, (Option.some.inj h).symm⟩))
      | false =>
          rw [hsg] at h
          refine Or.inr (Or.inr (Or.inr ⟨rfl, rfl, ?_⟩))
          cases hs : bls.sign c.private_key
              (noncommitMsg c.slot_info.j c.slot_info.i) with
          | none => rw [hs] at h; exact absurd h (by simp)
          | some sg =>
              rw [hs] at h
              refine ⟨sg, rfl, ?_⟩
              have hsab : Cubesat.sign_and_broadcast bls c
                  (ownNoncommit c sg) =
                  some ({ c with slot_info :=
                    { c.slot_info with signed := true } },
                    ownNoncommit c sg) := by
                unfold Cubesat.sign_and_broadcast
                rw [show (ownNoncommit c sg).msg =
                  noncommitMsg c.slot_info.j c.slot_info.i from rfl, hs]
                rfl
              simp only [Option.bind_eq_bind', Option.some_bind] at h
              rw [hsab] at h
              simp only [Option.bind_eq_bind', Option.some_bind] at h
              exact (Option.some.inj h).symm

/-- Forward evaluation of `sign_and_broadcast` when signing succeeds. -/
theorem sign_and_broadcast_of_sign {bls : Bls} {c : Cubesat} {cm : Commit}
    {sg : List Nat} (hs : bls.sign c.private_key cm.msg = some sg) :
    Cubesat.sign_and_broadcast bls c cm =
      some (markSigned c, signedCm c cm sg) := by
  unfold Cubesat.sign_and_broadcast
  rw [hs]
  rfl

/-- Forward evaluation of `sign_and_broadcast` when signing fails: the
`.unwrap()` panics. -/
theorem sign_and_broadcast_of_sign_none {bls : Bls} {c : Cubesat}
    {cm : Commit} (hs : bls.sign c.private_key cm.msg = none) :
    Cubesat.sign_and_broadcast bls c cm = none := by
  unfold Cubesat.sign_and_broadcast
  rw [hs]
  rfl

/-- First phase ignores non-commits. -/
theorem recordPhase_first_non {bls : Bls} {c : Cubesat} {cm : Commit}
    (hph : c.slot_info.phase = Phase.First)
    (hty : cm.typ = CommitType.Noncommit) :
    Cubesat.recordPhase bls c cm = some (c, cm, []) := by
  unfold Cubesat.recordPhase
  rw [hph, if_neg (by simp [hty])]

/-- First phase, precommit, already signed: record only. -/
theorem recordPhase_first_pre_signed {bls : Bls} {c : Cubesat} {cm : Commit}
    (hph : c.slot_info.phase = Phase.First)
    (hty : cm.typ = CommitType.Precommit)
    (hsg : c.slot_info.signed = true) :
    Cubesat.recordPhase bls c cm = some (pushPre c cm, cm, []) := by
  unfold Cubesat.recordPhase
  rw [hph, if_pos hty, hsg]
  rfl

/-- First phase, precommit, not yet signed, signing succeeds: sign,
emit, and record the re-signed commit. -/
theorem recordPhase_first_pre_unsigned {bls : Bls} {c : Cubesat}
    {cm : Commit} {sg : List Nat}
    (hph : c.slot_info.phase = Phase.First)
    (hty : cm.typ = CommitType.Precommit)
    (hsg : c.slot_info.signed = false)
    (hs : bls.sign c.private_key cm.msg = some sg) :
    Cubesat.recordPhase bls c cm =
      some (pushPre (markSigned c) (signedCm c cm sg),
        signedCm c cm sg, [signedCm c cm sg]) := by
  unfold Cubesat.recordPhase Cubesat.sign_and_broadcast
  rw [hph, if_pos hty, hsg, hs]
  rfl

/-- First phase, precommit, not yet signed, signing fails: panic. -/
theorem recordPhase_first_pre_unsigned_none {bls : Bls} {c : Cubesat}
    {cm : Commit}
    (hph : c.slot_info.phase = Phase.First)
    (hty : cm.typ = CommitType.Precommit)
    (hsg : c.slot_info.signed = false)
    (hs : bls.sign c.private_key cm.msg = none) :
    Cubesat.recordPhase bls c cm = none := by
  unfold Cubesat.recordPhase Cubesat.sign_and_broadcast
  rw [hph, if_pos hty, hsg, hs]
  rfl

/-- Second phase, already signed: record into the matching buffer. -/
theorem recordPhase_second_signed_pre {bls : Bls} {c : Cubesat}
    {cm : Commit}
    (hph : c.slot_info.phase = Phase.Second)
    (hsg : c.slot_info.signed = true)
    (hty : cm.typ = CommitType.Precommit) :
    Cubesat.recordPhase bls c cm = some (pushPre c cm, cm, []) := by
  obtain ⟨cid, cnum, ⟨i, j, ph, sgn, agg, ps, ns⟩, cpk, csk⟩ := c
  obtain ⟨ty, ci, cj, cmsg, wpk, wsig, wagg, wsid⟩ := cm
  have hph' : ph = Phase.Second := hph
  have hsg' : sgn = true := hsg
  have hty' : ty = CommitType.Precommit := hty
  subst hph' hsg' hty'
  rfl

/-- Second phase, already signed, non-commit: record into the
non-commit buffer. -/
theorem recordPhase_second_signed_non {bls : Bls} {c : Cubesat}
    {cm : Commit}
    (hph : c.slot_info.phase = Phase.Second)
    (hsg : c.slot_info.signed = true)
    (hty : cm.typ = CommitType.Noncommit) :
    Cubesat.recordPhase bls c cm = some (pushNon c cm, cm, []) := by
  obtain ⟨cid, cnum, ⟨i, j, ph, sgn, agg, ps, ns⟩, cpk, csk⟩ := c
  obtain ⟨ty, ci, cj, cmsg, wpk, wsig, wagg, wsid⟩ := cm
  have hph' : ph = Phase.Second := hph
  have hsg' : sgn = true := hsg
  have hty' : ty = CommitType.Noncommit := hty
  subst hph' hsg' hty'
  rfl

/-- Second phase, not yet signed, signing succeeds, precommit. -/
theorem recordPhase_second_unsigned_pre {bls : Bls} {c : Cubesat}
    {cm : Commit} {sg : List Nat}
    (hph : c.slot_info.phase = Phase.Second)
    (hsg : c.slot_info.signed = false)
    (hty : cm.typ = CommitType.Precommit)
    (hs : bls.sign c.private_key cm.msg = some sg) :
    Cubesat.recordPhase bls c cm =
      some (pushPre (markSigned c) (signedCm c cm sg),
        signedCm c cm sg, [signedCm c cm sg]) := by
  obtain ⟨cid, cnum, ⟨i, j, ph, sgn, agg, ps, ns⟩, cpk, csk⟩ := c
  obtain ⟨ty, ci, cj, cmsg, wpk, wsig, wagg, wsid⟩ := cm
  have hph' : ph = Phase.Second := hph
  have hsg' : sgn = false := hsg
  have hty' : ty = CommitType.Precommit := hty
  subst hph' hsg' hty'
  change (bls.sign csk cmsg >>= _) >>= _ = _
  rw [show bls.sign csk cmsg = some sg from hs]
  rfl

/-- Second phase, not yet signed, signing succeeds, non-commit. -/
theorem recordPhase_second_unsigned_non {bls : Bls} {c : Cubesat}
    {cm : Commit} {sg : List Nat}
    (hph : c.slot_info.phase = Phase.Second)
    (hsg : c.slot_info.signed = false)
    (hty : cm.typ = CommitType.Noncommit)
    (hs : bls.sign c.private_key cm.msg = some sg) :
    Cubesat.recordPhase bls c cm =
      some (pushNon (markSigned c) (signedCm c cm sg),
        signedCm c cm sg, [signedCm c cm sg]) := by
  obtain ⟨cid, cnum, ⟨i, j, ph, sgn, agg, ps, ns⟩, cpk, csk⟩ := c
  obtain ⟨ty, ci, cj, cmsg, wpk, wsig, wagg, wsid⟩ := cm
  have hph' : ph = Phase.Second := hph
  have hsg' : sgn = false := hsg
  have hty' : ty = CommitType.Noncommit := hty
  subst hph' hsg' hty'
  change (bls.sign csk cmsg >>= _) >>= _ = _
  rw [show bls.sign csk cmsg = some sg from hs]
  rfl

/-- Second phase, not yet signed, signing fails: panic. -/
theorem recordPhase_second_unsigned_none {bls : Bls} {c : Cubesat}
    {cm : Commit}
    (hph : c.slot_info.phase = Phase.Second)
    (hsg : c.slot_info.signed = false)
    (hs : bls.sign c.private_key cm.msg = none) :
    Cubesat.recordPhase bls c cm = none := by
  obtain ⟨cid, cnum, ⟨i, j, ph, sgn, agg, ps, ns⟩, cpk, csk⟩ := c
  obtain ⟨ty, ci, cj, cmsg, wpk, wsig, wagg, wsid⟩ := cm
  have hph' : ph = Phase.Second := hph
  have hsg' : sgn = false := hsg
  subst hph' hsg'
  change (bls.sign csk cmsg >>= _) >>= _ = _
  rw [show bls.sign csk cmsg = none from hs]
  rfl

/-- Third phase: record only, into the matching buffer. -/
theorem recordPhase_third_pre {bls : Bls} {c : Cubesat} {cm : Commit}
    (hph : c.slot_info.phase = Phase.Third)
    (hty : cm.typ = CommitType.Precommit) :
    Cubesat.recordPhase bls c cm = some (pushPre c cm, cm, []) := by
  obtain ⟨cid, cnum, ⟨i, j, ph, sgn, agg, ps, ns⟩, cpk, csk⟩ := c
  obtain ⟨ty, ci, cj, cmsg, wpk, wsig, wagg, wsid⟩ := cm
  have hph' : ph = Phase.Third := hph
  have hty' : ty = CommitType.Precommit := hty
  subst hph' hty'
  rfl

/-- Third phase, non-commit: record only. -/
theorem recordPhase_third_non {bls : Bls} {c : Cubesat} {cm : Commit}
    (hph : c.slot_info.phase = Phase.Third)
    (hty : cm.typ = CommitType.Noncommit) :
    Cubesat.recordPhase bls c cm = some (pushNon c cm, cm, []) := by
  obtain ⟨cid, cnum, ⟨i, j, ph, sgn, agg, ps, ns⟩, cpk, csk⟩ := c
  obtain ⟨ty, ci, cj, cmsg, wpk, wsig, wagg, wsid⟩ := cm
  have hph' : ph = Phase.Third := hph
  have hty' : ty = CommitType.Noncommit := hty
  subst hph' hty'
  rfl

/-- Inversion for `process`: a dropped commit (loopback, Stop phase or
already aggregated), an inbound aggregate for the current slot, or the
honest phase handling followed by the quorum check. -/
theorem process_eq_some {bls : Bls} {c : Cubesat} {cm : Commit}
    {r : Cubesat × List Commit}
    (h : Cubesat.process bls c cm = some r) :
    ((c.public_key = cm.public_key ∨ c.slot_info.phase = Phase.Stop ∨
      c.slot_info.aggregated = true) ∧ r = (c, [])) ∨
    (c.public_key ≠ cm.public_key ∧ c.slot_info.phase ≠ Phase.Stop ∧
      c.slot_info.aggregated = false ∧
      cm.aggregated = true ∧ cm.i = c.slot_info.i ∧
      r = ({ c with slot_info := { c.slot_info with
        aggregated := true
        j := cm.j } }, [])) ∨
    (c.public_key ≠ cm.public_key ∧ c.slot_info.phase ≠ Phase.Stop ∧
      c.slot_info.aggregated = false ∧
      ¬(cm.aggregated = true ∧ cm.i = c.slot_info.i) ∧
      ∃ s t, Cubesat.recordPhase bls c cm = some s ∧
        Cubesat.quorumCheck bls s.1 s.2.1 = some t ∧
        r = (t.1, s.2.2 ++ t.2)) := by
  unfold Cubesat.process at h
  split at h
  case isTrue hpk =>
    exact Or.inl ⟨Or.inl hpk, (Option.some.inj h).symm⟩
  case isFalse hpk =>
    split at h
    case isTrue hst =>
      exact Or.inl ⟨Or.inr (Or.inl hst), (Option.some.inj h).symm⟩
    case isFalse hst =>
      split at h
      case isTrue hag =>
        exact Or.inl ⟨Or.inr (Or.inr hag), (Option.some.inj h).symm⟩
      case isFalse hag =>
        have hag' : c.slot_info.aggregated = false := by
          cases hb : c.slot_info.aggregated
          · rfl
          · exact absurd hb hag
        split at h
        case isTrue hcm =>
          exact Or.inr (Or.inl ⟨hpk, hst, hag', hcm.1, hcm.2,
            (Option.some.inj h).symm⟩)
        case isFalse hcm =>
          refine Or.inr (Or.inr ⟨hpk, hst, hag', hcm, ?_⟩)
          cases hrp : Cubesat.recordPhase bls c cm with
          | none => rw [hrp] at h; exact absurd h (by simp)
          | some s =>
              obtain ⟨s1, s2, s3⟩ := s
              rw [hrp] at h
              simp only [Option.bind_eq_bind', Option.some_bind] at h
              cases hqc : Cubesat.quorumCheck bls s1 s2 with
              | none => rw [hqc] at h; exact absurd h (by simp)
              | some t =>
                  obtain ⟨t1, t2⟩ := t
                  rw [hqc] at h
                  simp only [Option.bind_eq_bind', Option.some_bind] at h
                  exact ⟨(s1, s2, s3), (t1, t2), rfl, hqc,
                    (Option.some.inj h).symm⟩

/-- Stop phase inside the handler is `unreachable!`: modelled as a
panic. -/
theorem recordPhase_stop {bls : Bls} {c : Cubesat} {cm : Commit}
    (hph : c.slot_info.phase = Phase.Stop) :
    Cubesat.recordPhase bls c cm = none := by
  obtain ⟨cid, cnum, ⟨i, j, ph, sgn, agg, ps, ns⟩, cpk, csk⟩ := c
  have hph' : ph = Phase.Stop := hph
  subst hph'
  rfl

/-- Inversion for `recordPhase`, assembled from the forward evaluation
lemmas. -/
theorem recordPhase_eq_some {bls : Bls} {c : Cubesat} {cm : Commit}
    {s : Cubesat × Commit × List Commit}
    (h : Cubesat.recordPhase bls c cm = some s) :
    (c.slot_info.phase = Phase.First ∧ cm.typ = CommitType.Noncommit ∧
      s = (c, cm, [])) ∨
    ((c.slot_info.phase = Phase.First ∧ cm.typ = CommitType.Precommit ∨
      c.slot_info.phase = Phase.Second) ∧
      ((c.slot_info.signed = true ∧
         ((cm.typ = CommitType.Precommit ∧ s = (pushPre c cm, cm, [])) ∨
          (cm.typ = CommitType.Noncommit ∧ s = (pushNon c cm, cm, [])))) ∨
       (c.slot_info.signed = false ∧
         ∃ sg, bls.sign c.private_key cm.msg = some sg ∧
         ((cm.typ = CommitType.Precommit ∧
            s = (pushPre (markSigned c) (signedCm c cm sg),
              signedCm c cm sg, [signedCm c cm sg])) ∨
          (cm.typ = CommitType.Noncommit ∧
            s = (pushNon (markSigned c) (signedCm c cm sg),
              signedCm c cm sg, [signedCm c cm sg])))))) ∨
    (c.slot_info.phase = Phase.Third ∧
      ((cm.typ = CommitType.Precommit ∧ s = (pushPre c cm, cm, [])) ∨
       (cm.typ = CommitType.Noncommit ∧ s = (pushNon c cm, cm, [])))) := by
  cases hph : c.slot_info.phase with
  | Stop =>
      rw [recordPhase_stop hph] at h
      exact absurd h (by simp)
  | First =>
      cases hty : cm.typ with
      | Noncommit =>
          rw [recordPhase_first_non hph hty] at h
          exact Or.inl ⟨rfl, rfl, (Option.some.inj h).symm⟩
      | Precommit =>
          cases hsgn : c.slot_info.signed with
          | true =>
              rw [recordPhase_first_pre_signed hph hty hsgn] at h
              exact Or.inr (Or.inl ⟨Or.inl ⟨rfl, rfl⟩,
                Or.inl ⟨rfl, Or.inl ⟨rfl, (Option.some.inj h).symm⟩⟩⟩)
          | false =>
              cases hsig : bls.sign c.private_key cm.msg with
              | none =>
                  rw [recordPhase_first_pre_unsigned_none hph hty hsgn
                    hsig] at h
                  exact absurd h (by simp)
              | some sg =>
                  rw [recordPhase_first_pre_unsigned hph hty hsgn hsig] at h
                  exact Or.inr (Or.inl ⟨Or.inl ⟨rfl, rfl⟩,
                    Or.inr ⟨rfl, sg, rfl,
                      Or.inl ⟨rfl, (Option.some.inj h).symm⟩⟩⟩)
  | Second =>
      cases hsgn : c.slot_info.signed with
      | true =>
          cases hty : cm.typ with
          | Precommit =>
              rw [recordPhase_second_signed_pre hph hsgn hty] at h
              exact Or.inr (Or.inl ⟨Or.inr rfl,
                Or.inl ⟨rfl, Or.inl ⟨rfl, (Option.some.inj h).symm⟩⟩⟩)
          | Noncommit =>
              rw [recordPhase_second_signed_non hph hsgn hty] at h
              exact Or.inr (Or.inl ⟨Or.inr rfl,
                Or.inl ⟨rfl, Or.inr ⟨rfl, (Option.some.inj h).symm⟩⟩⟩)
      | false =>
          cases hsig : bls.sign c.private_key cm.msg with
          | none =>
              rw [recordPhase_second_unsigned_none hph hsgn hsig] at h
              exact absurd h (by simp)
          | some sg =>
              cases hty : cm.typ with
              | Precommit =>
                  rw [recordPhase_second_unsigned_pre hph hsgn hty hsig] at h
                  exact Or.inr (Or.inl ⟨Or.inr rfl,
                    Or.inr ⟨rfl, sg, rfl,
                      Or.inl ⟨rfl, (Option.some.inj h).symm⟩⟩⟩)
              | Noncommit =>
                  rw [recordPhase_second_unsigned_non hph hsgn hty hsig] at h
                  exact Or.inr (Or.inl ⟨Or.inr rfl,
                    Or.inr ⟨rfl, sg, rfl,
                      Or.inr ⟨rfl, (Option.some.inj h).symm⟩⟩⟩)
  | Third =>
      cases hty : cm.typ with
      | Precommit =>
          rw [recordPhase_third_pre hph hty] at h
          exact Or.inr (Or.inr ⟨rfl,
            Or.inl ⟨rfl, (Option.some.inj h).symm⟩⟩)
      | Noncommit =>
          rw [recordPhase_third_non hph hty] at h
          exact Or.inr (Or.inr ⟨rfl,
            Or.inr ⟨rfl, (Option.some.inj h).symm⟩⟩)

/-- Unfolding lemma: `step` on a phase tick is `tickPhase`. -/
theorem step_tick {bls : Bls} {c : Cubesat} {ph : Phase} :
    Cubesat.step bls c (Event.tick ph) = Cubesat.tickPhase bls c ph := rfl

/-- Unfolding lemma: `step` on an inbound commit is `process`. -/
theorem step_recv {bls : Bls} {c : Cubesat} {cm : Commit} :
    Cubesat.step bls c (Event.recv cm) = Cubesat.process bls c cm := rfl

/-- Inversion for one `run` step. -/
theorem run_cons_eq_some {bls : Bls} {c : Cubesat} {e : Event}
    {es : List Event} {r : Cubesat × List Commit}
    (h : Cubesat.run bls c (e :: es) = some r) :
    ∃ s t, Cubesat.step bls c e = some s ∧
      Cubesat.run bls s.1 es = some t ∧ r = (t.1, s.2 ++ t.2) := by
  unfold Cubesat.run at h
  cases hs : Cubesat.step bls c e with
  | none => rw [hs] at h; exact absurd h (by simp)
  | some s =>
      obtain ⟨s1, s2⟩ := s
      rw [hs] at h
      simp only [Option.bind_eq_bind', Option.some_bind] at h
      cases ht : Cubesat.run bls s1 es with
      | none => rw [ht] at h; exact absurd h (by simp)
      | some t =>
          obtain ⟨t1, t2⟩ := t
          rw [ht] at h
          simp only [Option.bind_eq_bind', Option.some_bind] at h
          exact ⟨(s1, s2), (t1, t2), rfl, ht, (Option.some.inj h).symm⟩

/-- The state and commit shape produced by `aggregate_and_broadcast`:
the flags, buffers and counters of the unit other than `aggregated` and
`j` are unchanged, `j` is either kept or set to the current slot index,
and the emitted commit is an aggregate of the type of the commit passed
in. -/
theorem aggregate_and_broadcast_fields {bls : Bls} {c : Cubesat}
    {cm : Commit} {s : Cubesat × Commit}
    (h : Cubesat.aggregate_and_broadcast bls c cm = some s) :
    s.1.slot_info.signed = c.slot_info.signed ∧
    s.1.slot_info.i = c.slot_info.i ∧
    s.1.slot_info.phase = c.slot_info.phase ∧
    s.1.slot_info.precommits = c.slot_info.precommits ∧
    s.1.slot_info.noncommits = c.slot_info.noncommits ∧
    s.1.slot_info.aggregated = true ∧
    s.1.num_cubesats = c.num_cubesats ∧
    (s.1.slot_info.j = c.slot_info.j ∨ s.1.slot_info.j = c.slot_info.i) ∧
    s.2.aggregated = true ∧ s.2.typ = cm.typ := by
  obtain ⟨sp, hsp, hr⟩ := aggregate_and_broadcast_eq_some h
  rw [hr]
  by_cases hty : cm.typ = CommitType.Precommit <;>
    simp [hty]

/-- Every commit the coordinator loop returns upstream is an aggregate
whose slot index strictly exceeds the `last_slot` the loop started
from. -/
theorem bounceLoop_upstream_mem : ∀ (ls : Nat) (cs : List Commit),
    ∀ cm ∈ (Flock.bounceLoop ls cs).1, cm.aggregated = true ∧ ls < cm.i := by
  intro ls cs
  induction cs generalizing ls with
  | nil => intro cm hm; simp [Flock.bounceLoop] at hm
  | cons hd tl ih =>
      intro cm hm
      by_cases hag : hd.aggregated = true
      · by_cases hlt : ls < hd.i
        · simp only [Flock.bounceLoop, hag, hlt, if_true,
            List.mem_cons] at hm
          rcases hm with hm | hm
          · rw [hm]; exact ⟨hag, hlt⟩
          · have := ih hd.i cm hm
            exact ⟨this.1, lt_trans hlt this.2⟩
        · simp only [Flock.bounceLoop, hag, hlt, if_true, if_false] at hm
          have := ih ls cm hm
          exact this
      · simp only [Flock.bounceLoop, hag, if_false] at hm
        exact ih ls cm hm

/-- The slot indices of the upstream returns are strictly increasing. -/
theorem bounceLoop_upstream_sorted : ∀ (ls : Nat) (cs : List Commit),
    ((Flock.bounceLoop ls cs).1).Pairwise (fun a b => a.i < b.i) := by
  intro ls cs
  induction cs generalizing ls with
  | nil => simp [Flock.bounceLoop]
  | cons hd tl ih =>
      by_cases hag : hd.aggregated = true
      · by_cases hlt : ls < hd.i
        · simp only [Flock.bounceLoop, hag, hlt, if_true]
          rw [List.pairwise_cons]
          exact ⟨fun b hb => (bounceLoop_upstream_mem hd.i tl b hb).2,
            ih hd.i⟩
        · simp only [Flock.bounceLoop, hag, hlt, if_true, if_false]
          exact ih ls
      · simp only [Flock.bounceLoop, hag, if_false]
        exact ih ls

/-- A list of commits with strictly increasing slot indices holds at
most one commit per slot index. -/
theorem pairwise_lt_filter_length_le_one (l : List Commit) (k : Nat)
    (hp : l.Pairwise (fun a b => a.i < b.i)) :
    (l.filter (fun cm => cm.i == k)).length ≤ 1 := by
  induction l with
  | nil => simp
  | cons hd tl ih =>
      rw [List.pairwise_cons] at hp
      by_cases hk : hd.i = k
      · have hnil : tl.filter (fun cm => cm.i == k) = [] := by
          rw [List.filter_eq_nil_iff]
          intro a ha
          have hgt := hp.1 a ha
          simp only [beq_iff_eq]
          omega
        simp [List.filter_cons, hk, hnil]
      · simp only [List.filter_cons, beq_iff_eq, hk, if_false]
        exact ih hp.2

/-- C1, counterexample: in a three-unit flock whose precommit buffer
already holds the supermajority of two commits, recording an inbound
non-commit fires the quorum check on the precommit branch, yet the
emitted aggregate is a non-commit built from the non-commit buffer
(signature `[1, 9]`), not the aggregate of the precommit buffer
(signature `[1, 3, 6]`). -/
theorem c1_quorum_buffer_mismatch_cx :
    cSatQuorum.slot_info.precommits.length = 2 ∧
    supermajority cSatQuorum.num_cubesats = 2 ∧
    (Cubesat.process blsOk cSatQuorum exNoncommitA).map
      (fun r => r.2.map (fun cm => (cm.typ, cm.signature))) =
      some [(CommitType.Noncommit, [1, 9])] ∧
    blsOk.aggregate_signatures
      ((cSatQuorum.get_commits CommitType.Precommit).map Commit.signature) =
      some [1, 3, 6] ∧
    ([1, 9] : List Nat) ≠ [1, 3, 6] := by
  refine ⟨rfl, rfl, ?_, rfl, by decide⟩
  decide

/-- C2 (code bug): a unit of a three-unit flock observes an inbound
aggregate for slot 1 before signing; on the Third-phase tick it still
signs and broadcasts a non-commit for slot 1, because the tick guard
checks only `signed`, not `aggregated`. -/
theorem c2_third_tick_emits_after_aggregate :
    (Cubesat.run blsOk cSat3
      [Event.tick Phase.First, Event.recv exAggSlot1]).map
      (fun r => (r.1.slot_info.aggregated, r.1.slot_info.signed)) =
      some (true, false) ∧
    (Cubesat.run blsOk cSat3 evAggThenThird).map
      (fun r => (r.1.slot_info.aggregated,
        r.2.map (fun cm => (cm.i, cm.aggregated)))) =
      some (true, [(1, false)]) := by
  constructor
  · decide
  · decide

/-- C3, counterexample: from boot, a unit aggregates two peer precommits
in slot 1 and sets `j = 1`; then in slot 2 an inbound aggregate carrying
`j = 0` arrives and `slot.j` is rolled back from 1 to 0. -/
theorem c3_j_rollback_cx :
    (Cubesat.run blsOk cSat3 evRollbackPre).map
      (fun r => r.1.slot_info.j) = some 1 ∧
    (Cubesat.run blsOk cSat3 evRollbackFull).map
      (fun r => r.1.slot_info.j) = some 0 ∧
    evRollbackFull = evRollbackPre ++
      [Event.tick Phase.First, Event.recv exAggSlot2LowJ] ∧
    (0 : Nat) < 1 := by
  refine ⟨by decide, by decide, by decide, by decide⟩

/-- C5, counterexample: a single-unit flock whose ground-station
precommit arrives only after the Third-phase tick ends the slot with one
commit in each buffer, so the buffers hold 2 commits although `N = 1`. -/
theorem c5_buffer_total_exceeds_n_cx :
    cSat1.num_cubesats = 1 ∧
    (Cubesat.run blsOk cSat1 evLateRequest).map
      (fun r => r.1.slot_info.precommits.length +
        r.1.slot_info.noncommits.length) = some 2 ∧
    (1 : Nat) < 2 := by
  refine ⟨rfl, by decide, by decide⟩

/-- C6, counterexample: the Third-phase non-commit message the code
actually produces for `j = 0`, `i = 1` is `"noncommit(1, 1)"`, which
contains a space after the comma and therefore differs from the
claimed canonical string `"noncommit(1,1)"`. -/
theorem c6_msg_has_space_cx :
    (Cubesat.run blsOk cSat1 evThreeTicks).map
      (fun r => r.2.map Commit.msg) = some ["noncommit(1, 1)"] ∧
    ("noncommit(1, 1)" : String) ≠ "noncommit(1,1)" := by
  refine ⟨by decide, by decide⟩

/-- C9, counterexample: when the BLS sign primitive fails while an
unsigned unit handles a Second-phase commit, the handler panics — it
yields no successor state at all, and the run loop dies — instead of
logging and continuing with the flags unchanged. -/
theorem c9_bls_error_panics_cx :
    Cubesat.process blsBad cSatUnsigned exPrecommitA = none ∧
    Cubesat.run blsBad cSatUnsigned [Event.recv exPrecommitA] = none := by
  refine ⟨by decide, by decide⟩

/-- C8: the coordinator's receive loop returns upstream only aggregate
commits whose slot index strictly exceeds the `last_slot` value at the
time, updating `last_slot` in the same step, so across all `bounce`
invocations at most one aggregate is returned per slot index and
aggregates with `i ≤ last_slot` are dropped. -/
theorem c8_duplicate_slot_guard (last_slot : Nat)
    (received : List Commit) :
    (∀ cm ∈ Flock.upstream last_slot received,
      cm.aggregated = true ∧ last_slot < cm.i) ∧
    ∀ k, ((Flock.upstream last_slot received).filter
      (fun cm => cm.i == k)).length ≤ 1 := by
  constructor
  · exact bounceLoop_upstream_mem last_slot received
  · intro k
    exact pairwise_lt_filter_length_le_one _ k
      (bounceLoop_upstream_sorted last_slot received)

/-- Witness for C8 at `last_slot = 0` and a duplicated aggregate for
slot 1. -/
theorem c8_duplicate_slot_guard_witness :
    (exAggUp.aggregated = true ∧ 0 < exAggUp.i) ∧
    ((Flock.upstream 0 [exAggUp, exAggUp]).filter
      (fun cm => cm.i == 1)).length ≤ 1 :=
  ⟨(c8_duplicate_slot_guard 0 [exAggUp, exAggUp]).1 exAggUp (by decide),
   (c8_duplicate_slot_guard 0 [exAggUp, exAggUp]).2 1⟩

/-- C10: with `last_slot` initialized to 0 by `Flock::new` and the
strictly-greater guard, every commit returned upstream has slot index at
least 1; an aggregate for slot 0 is never returned. -/
theorem c10_no_slot_zero_upstream (received : List Commit) :
    ∀ cm ∈ Flock.upstream 0 received, 1 ≤ cm.i := by
  intro cm hm
  have h := (bounceLoop_upstream_mem 0 received cm hm).2
  omega

/-- Witness for C10. -/
theorem c10_no_slot_zero_upstream_witness : 1 ≤ exAggUp.i :=
  c10_no_slot_zero_upstream [exAggUp] exAggUp (by decide)

/-- C1 (amended): when the quorum check fires — because either buffer
has reached the supermajority threshold, precommits tested first — the
emitted broadcast is a single aggregate built by `aggregate_and_broadcast`
from the buffer matching the type of the just-recorded commit, which
need not be the buffer that reached the threshold. -/
theorem c1_quorum_aggregates_recorded_type (bls : Bls) (c : Cubesat)
    (cm : Commit) (t : Cubesat × List Commit)
    (h : Cubesat.quorumCheck bls c cm = some t)
    (hq : supermajority c.num_cubesats ≤ c.slot_info.precommits.length ∨
      supermajority c.num_cubesats ≤ c.slot_info.noncommits.length) :
    ∃ out sp, t.2 = [out] ∧
      Cubesat.aggregate bls (c.get_commits cm.typ) = some sp ∧
      out.typ = cm.typ ∧ out.signature = sp.1 ∧ out.public_key = sp.2 ∧
      out.aggregated = true ∧ t.1.slot_info.aggregated = true := by
  rcases quorumCheck_eq_some h with ⟨hp, hn, _⟩ | ⟨_, s, hab, hr⟩
  · rcases hq with hq | hq
    · exact absurd hq hp
    · exact absurd hq hn
  · obtain ⟨sp, hsp, hse⟩ := aggregate_and_broadcast_eq_some hab
    subst hse
    rw [hr]
    refine ⟨_, sp, rfl, hsp, rfl, rfl, rfl, rfl, ?_⟩
    by_cases hty : cm.typ = CommitType.Precommit <;> simp [hty]

/-- Witness for C1's amended theorem at a state whose precommit buffer
holds the supermajority while a non-commit is recorded. -/
theorem c1_quorum_aggregates_recorded_type_witness :
    ((Cubesat.quorumCheck blsOk cSatQuorum exNoncommitA).getD
      (cSatQuorum, [])).1.slot_info.aggregated = true := by
  obtain ⟨out, sp, h1, h2, h3, h4, h5, h6, h7⟩ :=
    c1_quorum_aggregates_recorded_type blsOk cSatQuorum exNoncommitA
      ((Cubesat.quorumCheck blsOk cSatQuorum exNoncommitA).getD
        (cSatQuorum, []))
      (by decide) (Or.inl (by decide))
  exact h7

/-- C6 (amended): on a Third-phase tick with the unit not yet signed,
the unit constructs, signs and broadcasts exactly one non-aggregate
non-commit whose message is `"noncommit(" ++ (j+1) ++ ", " ++ i ++ ")"`
— with a space after the comma — and appends that same non-commit to its
non-commit buffer, marking the slot signed. -/
theorem c6_third_tick_noncommit (bls : Bls) (c : Cubesat)
    (r : Cubesat × List Commit)
    (hsg : c.slot_info.signed = false)
    (h : Cubesat.step bls c (Event.tick Phase.Third) = some r) :
    ∃ sg, bls.sign c.private_key
        (noncommitMsg c.slot_info.j c.slot_info.i) = some sg ∧
      r.2 = [ownNoncommit c sg] ∧
      (ownNoncommit c sg).typ = CommitType.Noncommit ∧
      (ownNoncommit c sg).aggregated = false ∧
      (ownNoncommit c sg).i = c.slot_info.i ∧
      (ownNoncommit c sg).msg =
        "noncommit(" ++ toString ((c.slot_info.j + 1) % u32Size) ++
          ", " ++ toString c.slot_info.i ++ ")" ∧
      r.1.slot_info.noncommits =
        c.slot_info.noncommits ++ [ownNoncommit c sg] ∧
      r.1.slot_info.signed = true := by
  rw [step_tick] at h
  rcases tickPhase_eq_some h with ⟨hph, _⟩ | ⟨hph, _⟩ | ⟨_, hsg2, _⟩ |
    ⟨_, _, sg, hs, hr⟩
  · exact Phase.noConfusion hph
  · rcases hph with hph | hph <;> exact Phase.noConfusion hph
  · rw [hsg] at hsg2; exact Bool.noConfusion hsg2
  · refine ⟨sg, hs, ?_⟩
    rw [hr]
    exact ⟨rfl, rfl, rfl, rfl, rfl, rfl, rfl⟩

/-- Witness for C6's amended theorem. -/
theorem c6_third_tick_noncommit_witness :
    ((Cubesat.step blsOk cSatUnsigned (Event.tick Phase.Third)).getD
      (cSatUnsigned, [])).1.slot_info.signed = true := by
  obtain ⟨sg, h1, h2, h3, h4, h5, h6, h7, h8⟩ :=
    c6_third_tick_noncommit blsOk cSatUnsigned
      ((Cubesat.step blsOk cSatUnsigned (Event.tick Phase.Third)).getD
        (cSatUnsigned, []))
      (by decide) (by decide)
  exact h8

/-- C9 (amended): when the BLS sign primitive fails while an unsigned
unit handles a Second-phase non-loopback, non-aggregate commit, the
`.unwrap()` panics: `process` yields no successor state at all — the
failure is not logged-and-contained with the flags left unchanged. -/
theorem c9_sign_failure_panics (bls : Bls) (c : Cubesat) (cm : Commit)
    (hpk : ¬ c.public_key = cm.public_key)
    (hph : c.slot_info.phase = Phase.Second)
    (hag : c.slot_info.aggregated = false)
    (hsg : c.slot_info.signed = false)
    (hna : ¬(cm.aggregated = true ∧ cm.i = c.slot_info.i))
    (hs : bls.sign c.private_key cm.msg = none) :
    Cubesat.process bls c cm = none := by
  cases hp : Cubesat.process bls c cm with
  | none => rfl
  | some r =>
      exfalso
      rcases process_eq_some hp with ⟨hg, _⟩ |
        ⟨_, _, _, hcg, hci, _⟩ | ⟨_, _, _, _, s, t, hrp, _, _⟩
      · rcases hg with hg | hg | hg
        · exact hpk hg
        · rw [hph] at hg; exact Phase.noConfusion hg
        · rw [hag] at hg; exact Bool.noConfusion hg
      · exact hna ⟨hcg, hci⟩
      · rw [recordPhase_second_unsigned_none hph hsg hs] at hrp
        exact Option.noConfusion hrp

/-- Witness for C9's amended theorem. -/
theorem c9_sign_failure_panics_witness :
    Cubesat.process blsBad cSatUnsigned exPrecommitA = none :=
  c9_sign_failure_panics blsBad cSatUnsigned exPrecommitA
    (by decide) (by decide) (by decide) (by decide) (by decide) (by decide)

/-- C3 (amended): a step changes `slot.j` only by keeping it, by setting
it to the current slot index `i` (aggregating precommits), or — on an
inbound aggregate for the current slot — by overwriting it with the
aggregate's `j` field, which may be smaller. -/
theorem c3_j_update_characterization (bls : Bls) (c : Cubesat)
    (e : Event) (r : Cubesat × List Commit)
    (h : Cubesat.step bls c e = some r) :
    r.1.slot_info.j = c.slot_info.j ∨
    r.1.slot_info.j = c.slot_info.i ∨
    recvAggSetsJ c r e := by
  cases e with
  | tick ph =>
      rw [step_tick] at h
      rcases tickPhase_eq_some h with ⟨_, hr⟩ | ⟨_, hr⟩ | ⟨_, _, hr⟩ |
        ⟨_, _, sg, _, hr⟩ <;> rw [hr] <;> exact Or.inl rfl
  | recv cm =>
      rw [step_recv] at h
      rcases process_eq_some h with ⟨_, hr⟩ |
        ⟨_, _, _, hcg, hci, hr⟩ | ⟨_, _, _, _, s, t, hrp, hqc, hr⟩
      · rw [hr]; exact Or.inl rfl
      · refine Or.inr (Or.inr ?_)
        rw [recvAggSetsJ]
        exact ⟨hcg, hci, by rw [hr]⟩
      · have hsj : s.1.slot_info.j = c.slot_info.j ∧
            s.1.slot_info.i = c.slot_info.i := by
          rcases recordPhase_eq_some hrp with ⟨_, _, hs⟩ |
            ⟨_, ⟨_, (⟨_, hs⟩ | ⟨_, hs⟩)⟩ | ⟨_, sg, _, (⟨_, hs⟩ | ⟨_, hs⟩)⟩⟩ |
            ⟨_, (⟨_, hs⟩ | ⟨_, hs⟩)⟩ <;> rw [hs] <;> exact ⟨rfl, rfl⟩
        rcases quorumCheck_eq_some hqc with ⟨_, _, ht⟩ | ⟨_, u, hab, ht⟩
        · left
          rw [hr, ht]
          exact hsj.1
        · obtain ⟨hf1, hf2, hf3, hf4, hf5, hf6, hf7, hf8, hf9, hf10⟩ :=
            aggregate_and_broadcast_fields hab
          rw [hr, ht]
          rcases hf8 with hju | hju
          · left
            rw [show ((u.1, [u.2]).1.slot_info.j : Nat) = u.1.slot_info.j
              from rfl, hju, hsj.1]
          · right; left
            rw [show ((u.1, [u.2]).1.slot_info.j : Nat) = u.1.slot_info.j
              from rfl, hju, hsj.2]

/-- Witness for C3's amended theorem: a Second-phase tick leaves `j`
unchanged. -/
theorem c3_j_update_characterization_witness :
    ((Cubesat.step blsOk cSat3 (Event.tick Phase.Second)).getD
      (cSat3, [])).1.slot_info.j = cSat3.slot_info.j ∨
    ((Cubesat.step blsOk cSat3 (Event.tick Phase.Second)).getD
      (cSat3, [])).1.slot_info.j = cSat3.slot_info.i ∨
    recvAggSetsJ cSat3
      ((Cubesat.step blsOk cSat3 (Event.tick Phase.Second)).getD
        (cSat3, []))
      (Event.tick Phase.Second) :=
  c3_j_update_characterization blsOk cSat3 (Event.tick Phase.Second)
    ((Cubesat.step blsOk cSat3 (Event.tick Phase.Second)).getD
      (cSat3, []))
    (by decide)

/-- Additivity of `nonAggCount` over concatenation. -/
theorem nonAggCount_append (a b : List Commit) :
    nonAggCount (a ++ b) = nonAggCount a + nonAggCount b := by
  simp [nonAggCount, List.filter_append]

/-- One step that is not a First-phase tick emits a non-aggregate commit
only while the signed flag is down, and raises the flag when it does:
the count of non-aggregate emissions plus the remaining signing budget
never grows. -/
theorem step_nonAggCount (bls : Bls) {c : Cubesat} {e : Event}
    {r : Cubesat × List Commit} (h : Cubesat.step bls c e = some r)
    (hf : e ≠ Event.tick Phase.First) :
    nonAggCount r.2 + (if r.1.slot_info.signed = true then 0 else 1) ≤
      (if c.slot_info.signed = true then 0 else 1) := by
  cases e with
  | tick ph =>
      rw [step_tick] at h
      rcases tickPhase_eq_some h with ⟨hph, hr⟩ | ⟨hph, hr⟩ |
        ⟨hph, hsg, hr⟩ | ⟨hph, hsg, sg, hs, hr⟩
      · exact absurd (by rw [hph]) hf
      · rw [hr]; simp [nonAggCount]
      · rw [hr]; simp [nonAggCount, hsg]
      · rw [hr]; simp [nonAggCount, hsg, ownNoncommit]
  | recv cm =>
      rw [step_recv] at h
      rcases process_eq_some h with ⟨_, hr⟩ |
        ⟨_, _, _, _, _, hr⟩ | ⟨_, _, _, _, s, t, hrp, hqc, hr⟩
      · rw [hr]; simp [nonAggCount]
      · rw [hr]; simp [nonAggCount]
      · have hs_fact : nonAggCount s.2.2 +
            (if s.1.slot_info.signed = true then 0 else 1) ≤
            (if c.slot_info.signed = true then 0 else 1) := by
          rcases recordPhase_eq_some hrp with ⟨_, _, hs⟩ |
            ⟨_, ⟨hsgn, (⟨_, hs⟩ | ⟨_, hs⟩)⟩ |
              ⟨hsgn, sg, _, (⟨_, hs⟩ | ⟨_, hs⟩)⟩⟩ |
            ⟨_, (⟨_, hs⟩ | ⟨_, hs⟩)⟩
          · rw [hs]; simp [nonAggCount]
          · rw [hs]; simp [nonAggCount, pushPre]
          · rw [hs]; simp [nonAggCount, pushNon]
          · rw [hs]
            rcases hca : cm.aggregated <;>
              simp [nonAggCount, pushPre, markSigned, signedCm, hsgn, hca]
          · rw [hs]
            rcases hca : cm.aggregated <;>
              simp [nonAggCount, pushNon, markSigned, signedCm, hsgn, hca]
          · rw [hs]; simp [nonAggCount, pushPre]
          · rw [hs]; simp [nonAggCount, pushNon]
        have ht_fact : t.1.slot_info.signed = s.1.slot_info.signed ∧
            nonAggCount t.2 = 0 := by
          rcases quorumCheck_eq_some hqc with ⟨_, _, ht⟩ | ⟨_, u, hab, ht⟩
          · rw [ht]; exact ⟨rfl, rfl⟩
          · obtain ⟨hf1, _, _, _, _, _, _, _, hf9, _⟩ :=
              aggregate_and_broadcast_fields hab
            rw [ht]
            exact ⟨hf1, by simp [nonAggCount, hf9]⟩
        rw [hr]
        show nonAggCount (s.2.2 ++ t.2) +
          (if t.1.slot_info.signed = true then 0 else 1) ≤ _
        rw [nonAggCount_append, ht_fact.1, ht_fact.2]
        omega

/-- Over any run without a First-phase tick, the count of non-aggregate
emissions plus the remaining signing budget never grows. -/
theorem run_nonAggCount (bls : Bls) : ∀ (es : List Event) (c : Cubesat)
    (r : Cubesat × List Commit),
    Cubesat.run bls c es = some r →
    (∀ e ∈ es, e ≠ Event.tick Phase.First) →
    nonAggCount r.2 + (if r.1.slot_info.signed = true then 0 else 1) ≤
      (if c.slot_info.signed = true then 0 else 1) := by
  intro es
  induction es with
  | nil =>
      intro c r h hf
      have hr := (Option.some.inj h).symm
      rw [hr]
      simp [nonAggCount]
  | cons e es ih =>
      intro c r h hf
      obtain ⟨s, t, hs, ht, hr⟩ := run_cons_eq_some h
      have h1 := step_nonAggCount bls hs (hf e (by simp))
      have h2 := ih s.1 t ht (fun e' he' => hf e' (by simp [he']))
      rw [hr]
      show nonAggCount (s.2 ++ t.2) +
        (if t.1.slot_info.signed = true then 0 else 1) ≤ _
      rw [nonAggCount_append]
      omega

/-- C4: across any sequence of events during which the slot index never
advances (no First-phase tick), a Bounce Unit emits at most one
non-aggregate commit of its own: every signing path is guarded by the
signed flag, which only a First-phase tick resets. -/
theorem c4_at_most_once_signing (bls : Bls) (c : Cubesat)
    (es : List Event) (r : Cubesat × List Commit)
    (h : Cubesat.run bls c es = some r)
    (hf : ∀ e ∈ es, e ≠ Event.tick Phase.First) :
    nonAggCount r.2 ≤ 1 := by
  have hk := run_nonAggCount bls es c r h hf
  have hb : (if c.slot_info.signed = true then 0 else 1) ≤ 1 := by
    split <;> omega
  omega

/-- Witness for C4 over a concrete slot-long trace. -/
theorem c4_at_most_once_signing_witness :
    nonAggCount (((Cubesat.run blsOk cSat3 evNoFirst).getD
      (cSat3, [])).2) ≤ 1 :=
  c4_at_most_once_signing blsOk cSat3 evNoFirst
    ((Cubesat.run blsOk cSat3 evNoFirst).getD (cSat3, []))
    (by decide) (by decide)

/-- A positive flock size gives a positive threshold. -/
theorem one_le_supermajority {n : Nat} (hn : 1 ≤ n) :
    1 ≤ supermajority n := by
  unfold supermajority
  rw [Nat.one_le_div_iff (by norm_num)]
  omega

/-- Shape of the state after `recordPhase`: the counters and phase are
unchanged, the signed flag is monotone and can be down afterwards only
if it was down and either nothing was recorded or the phase is Third,
and the buffers grow by at most one commit in total. -/
theorem recordPhase_shape {bls : Bls} {c : Cubesat} {cm : Commit}
    {s : Cubesat × Commit × List Commit}
    (h : Cubesat.recordPhase bls c cm = some s) :
    s.1.num_cubesats = c.num_cubesats ∧
    s.1.slot_info.phase = c.slot_info.phase ∧
    (c.slot_info.signed = true → s.1.slot_info.signed = true) ∧
    (s.1.slot_info.signed = false → c.slot_info.signed = false ∧
      (c.slot_info.phase = Phase.Third ∨
       (s.1.slot_info.precommits = c.slot_info.precommits ∧
        s.1.slot_info.noncommits = c.slot_info.noncommits))) ∧
    s.1.slot_info.precommits.length + s.1.slot_info.noncommits.length ≤
      c.slot_info.precommits.length + c.slot_info.noncommits.length + 1 := by
  rcases recordPhase_eq_some h with ⟨hph, _, hs⟩ |
    ⟨hphor, ⟨hsgn, (⟨_, hs⟩ | ⟨_, hs⟩)⟩ |
      ⟨hsgn, sg, _, (⟨_, hs⟩ | ⟨_, hs⟩)⟩⟩ |
    ⟨hph, (⟨_, hs⟩ | ⟨_, hs⟩)⟩
  · rw [hs]
    exact ⟨rfl, rfl, fun hc => hc, fun hf => ⟨hf, Or.inr ⟨rfl, rfl⟩⟩,
      by simp only []; omega⟩
  · rw [hs]
    refine ⟨rfl, rfl, fun hc => hc,
      fun hf => Bool.noConfusion (hsgn.symm.trans hf), ?_⟩
    simp [pushPre]
    omega
  · rw [hs]
    refine ⟨rfl, rfl, fun hc => hc,
      fun hf => Bool.noConfusion (hsgn.symm.trans hf), ?_⟩
    simp [pushNon]
    omega
  · rw [hs]
    refine ⟨rfl, rfl, fun _ => rfl,
      fun hf => Bool.noConfusion hf, ?_⟩
    simp [pushPre, markSigned]
    omega
  · rw [hs]
    refine ⟨rfl, rfl, fun _ => rfl,
      fun hf => Bool.noConfusion hf, ?_⟩
    simp [pushNon, markSigned]
    omega
  · rw [hs]
    refine ⟨rfl, rfl, fun hc => hc, fun hf => ⟨hf, Or.inl hph⟩, ?_⟩
    simp [pushPre]
    omega
  · rw [hs]
    refine ⟨rfl, rfl, fun hc => hc, fun hf => ⟨hf, Or.inl hph⟩, ?_⟩
    simp [pushNon]
    omega

/-- Shape of the state after the quorum check: counters, flags and
buffers are unchanged except that `aggregated` may be raised; when it is
not raised, both buffers were strictly below the threshold. -/
theorem quorumCheck_shape {bls : Bls} {c : Cubesat} {cm : Commit}
    {t : Cubesat × List Commit}
    (h : Cubesat.quorumCheck bls c cm = some t) :
    t.1.num_cubesats = c.num_cubesats ∧
    t.1.slot_info.phase = c.slot_info.phase ∧
    t.1.slot_info.signed = c.slot_info.signed ∧
    t.1.slot_info.precommits = c.slot_info.precommits ∧
    t.1.slot_info.noncommits = c.slot_info.noncommits ∧
    ((¬ supermajority c.num_cubesats ≤ c.slot_info.precommits.length ∧
      ¬ supermajority c.num_cubesats ≤ c.slot_info.noncommits.length) ∨
     t.1.slot_info.aggregated = true) := by
  rcases quorumCheck_eq_some h with ⟨hp, hn, ht⟩ | ⟨_, u, hab, ht⟩
  · rw [ht]
    exact ⟨rfl, rfl, rfl, rfl, rfl, Or.inl ⟨hp, hn⟩⟩
  · obtain ⟨hf1, hf2, hf3, hf4, hf5, hf6, hf7, hf8, hf9, hf10⟩ :=
      aggregate_and_broadcast_fields hab
    rw [ht]
    exact ⟨hf7, hf3, hf1, hf4, hf5, Or.inr hf6⟩

/-- Every step preserves the buffer-occupancy invariant. -/
theorem step_BufInv (bls : Bls) {c : Cubesat} {e : Event}
    {r : Cubesat × List Commit} (h : Cubesat.step bls c e = some r)
    (hinv : BufInv c) : BufInv r.1 := by
  obtain ⟨hT, hempty, hthird, hocc, htot⟩ := hinv
  cases e with
  | tick ph =>
      rw [step_tick] at h
      rcases tickPhase_eq_some h with ⟨hph, hr⟩ | ⟨hph, hr⟩ |
        ⟨hph, hsg, hr⟩ | ⟨hph, hsg, sg, hs, hr⟩
      · rw [hr]
        refine ⟨hT, fun _ => ⟨rfl, rfl⟩, fun hx => Phase.noConfusion hx,
          fun _ => Or.inl ⟨?_, ?_⟩, ?_⟩
        · simpa using hT
        · simpa using hT
        · simp [SlotInfo.next]
      · rw [hr]
        refine ⟨hT, fun hf => hempty hf, fun hx => ?_, hocc, htot⟩
        have hx' : ph = Phase.Third := hx
        rcases hph with h2 | h2 <;> rw [h2] at hx' <;>
          exact Phase.noConfusion hx'
      · rw [hr]
        exact ⟨hT, fun hf => Bool.noConfusion (hsg.symm.trans hf),
          fun _ => hsg, hocc, htot⟩
      · rw [hr]
        obtain ⟨hpe, hne⟩ := hempty hsg
        refine ⟨hT, fun hf => Bool.noConfusion hf, fun _ => rfl,
          fun _ => Or.inr ⟨hpe, ?_⟩, ?_⟩
        · show (c.slot_info.noncommits ++ [ownNoncommit c sg]).length = 1
          rw [hne]
          rfl
        · show c.slot_info.precommits.length +
            (c.slot_info.noncommits ++ [ownNoncommit c sg]).length ≤
            2 * supermajority c.num_cubesats
          rw [hpe, hne]
          simp
          omega
  | recv cm =>
      rw [step_recv] at h
      rcases process_eq_some h with ⟨_, hr⟩ |
        ⟨_, _, _, _, _, hr⟩ | ⟨_, _, hagF, _, s, t, hrp, hqc, hr⟩
      · rw [hr]
        exact ⟨hT, hempty, hthird, hocc, htot⟩
      · rw [hr]
        exact ⟨hT, fun hf => hempty hf, fun hx => hthird hx,
          fun hx => Bool.noConfusion hx, htot⟩
      · obtain ⟨hs1, hs2, hs4, hs5, hs8⟩ := recordPhase_shape hrp
        obtain ⟨ht1, ht2, ht3, ht4, ht5, htfire⟩ := quorumCheck_shape hqc
        rw [hr]
        show BufInv t.1
        refine ⟨?_, ?_, ?_, ?_, ?_⟩
        · rw [ht1, hs1]; exact hT
        · intro hf
          have hsf : s.1.slot_info.signed = false := by rw [← ht3]; exact hf
          obtain ⟨hcf, hcase⟩ := hs5 hsf
          rcases hcase with hthird' | ⟨hbp, hbn⟩
          · exact Bool.noConfusion ((hthird hthird').symm.trans hcf)
          · constructor
            · rw [ht4, hbp]; exact (hempty hcf).1
            · rw [ht5, hbn]; exact (hempty hcf).2
        · intro hx
          rw [ht2, hs2] at hx
          rw [ht3]
          exact hs4 (hthird hx)
        · intro hf
          rcases htfire with ⟨hnp, hnn⟩ | hagg
          · left
            rw [ht1, hs1, ht4, ht5]
            rw [hs1] at hnp hnn
            omega
          · rw [hagg] at hf
            exact Bool.noConfusion hf
        · rw [ht1, hs1, ht4, ht5]
          rcases hocc hagF with ⟨hA1, hA2⟩ | ⟨hB1, hB2⟩
          · omega
          · have hB1' : c.slot_info.precommits.length = 0 := by
              rw [hB1]; rfl
            omega

/-- The buffer-occupancy invariant holds along any run from a state that
satisfies it. -/
theorem run_BufInv (bls : Bls) : ∀ (es : List Event) (c : Cubesat)
    (r : Cubesat × List Commit),
    Cubesat.run bls c es = some r → BufInv c → BufInv r.1 := by
  intro es
  induction es with
  | nil =>
      intro c r h hinv
      have hr := (Option.some.inj h).symm
      rw [hr]
      exact hinv
  | cons e es ih =>
      intro c r h hinv
      obtain ⟨s, t, hs, ht, hr⟩ := run_cons_eq_some h
      have h1 := step_BufInv bls hs hinv
      have h2 := ih s.1 t ht h1
      rw [hr]
      exact h2

/-- A step never changes the flock size stored in the unit. -/
theorem step_num (bls : Bls) {c : Cubesat} {e : Event}
    {r : Cubesat × List Commit} (h : Cubesat.step bls c e = some r) :
    r.1.num_cubesats = c.num_cubesats := by
  cases e with
  | tick ph =>
      rw [step_tick] at h
      rcases tickPhase_eq_some h with ⟨_, hr⟩ | ⟨_, hr⟩ | ⟨_, _, hr⟩ |
        ⟨_, _, sg, _, hr⟩ <;> rw [hr]
  | recv cm =>
      rw [step_recv] at h
      rcases process_eq_some h with ⟨_, hr⟩ |
        ⟨_, _, _, _, _, hr⟩ | ⟨_, _, _, _, s, t, hrp, hqc, hr⟩
      · rw [hr]
      · rw [hr]
      · rw [hr]
        show t.1.num_cubesats = c.num_cubesats
        rw [(quorumCheck_shape hqc).1, (recordPhase_shape hrp).1]

/-- A run never changes the flock size stored in the unit. -/
theorem run_num (bls : Bls) : ∀ (es : List Event) (c : Cubesat)
    (r : Cubesat × List Commit),
    Cubesat.run bls c es = some r →
    r.1.num_cubesats = c.num_cubesats := by
  intro es
  induction es with
  | nil =>
      intro c r h
      have hr := (Option.some.inj h).symm
      rw [hr]
  | cons e es ih =>
      intro c r h
      obtain ⟨s, t, hs, ht, hr⟩ := run_cons_eq_some h
      rw [hr]
      show t.1.num_cubesats = c.num_cubesats
      rw [ih s.1 t ht, step_num bls hs]

/-- C5 (amended): from boot, in a flock of `N ≥ 1` units, the precommit
buffer and the non-commit buffer together never hold more than
`2·T(N)` commits (the claimed bound `N` fails; see the
counterexample). -/
theorem c5_buffer_bound_amended (bls : Bls) (id n : Nat)
    (pk sk : List Nat) (es : List Event) (r : Cubesat × List Commit)
    (hn : 1 ≤ n)
    (h : Cubesat.run bls (Cubesat.new id n pk sk) es = some r) :
    r.1.slot_info.precommits.length + r.1.slot_info.noncommits.length ≤
      2 * supermajority n := by
  have hinv0 : BufInv (Cubesat.new id n pk sk) := by
    refine ⟨one_le_supermajority hn, fun _ => ⟨rfl, rfl⟩,
      fun hx => Phase.noConfusion hx, fun _ => Or.inl ⟨?_, ?_⟩, ?_⟩
    · simpa [Cubesat.new, SlotInfo.new] using one_le_supermajority hn
    · simpa [Cubesat.new, SlotInfo.new] using one_le_supermajority hn
    · simp [Cubesat.new, SlotInfo.new]
  have hinv := run_BufInv bls es (Cubesat.new id n pk sk) r h hinv0
  obtain ⟨_, _, _, _, htot⟩ := hinv
  have hnum : r.1.num_cubesats = n := run_num bls es _ r h
  rw [hnum] at htot
  exact htot

/-- Witness for C5's amended bound on the single-unit late-request
trace. -/
theorem c5_buffer_bound_amended_witness :
    ((Cubesat.run blsOk (Cubesat.new 0 1 [5] [7]) evLateRequest).getD
      (Cubesat.new 0 1 [5] [7], [])).1.slot_info.precommits.length +
    ((Cubesat.run blsOk (Cubesat.new 0 1 [5] [7]) evLateRequest).getD
      (Cubesat.new 0 1 [5] [7], [])).1.slot_info.noncommits.length ≤
    2 * supermajority 1 :=
  c5_buffer_bound_amended blsOk 0 1 [5] [7] evLateRequest
    ((Cubesat.run blsOk (Cubesat.new 0 1 [5] [7]) evLateRequest).getD
      (Cubesat.new 0 1 [5] [7], []))
    (by decide) (by decide)
